import Mathlib

/-!
# Core UI widgets: scroll bar and file selector

A shallow embedding of `src/ui/scroll_bar.cpp` and `src/ui/file_selector.cpp`.

* `float` quantities are carried as exact rationals (`ℚ`); `vec2` is a pair of them.
* `std::string` and `boost::filesystem::path` are carried as lists of characters
  (`Str`); a path is identified with its `string()`.
* Everything the widgets ask of the outside world (the file system, the parent
  layout, the keyboard) is an explicit argument.
* The methods of the file selector are given as the values they return when
  every call of `is_directory` answers; `autocomplete` is given a second time,
  as `autocomplete_call`, with the `filesystem_error` that such a call throws
  when the status of a path cannot be obtained.
* The POSIX build is embedded (the `#else` branches of `#ifdef _WIN32`).
-/

set_option linter.unusedVariables false

namespace Core

/-! ## Scroll bar (`src/ui/scroll_bar.cpp`) -/

/-- Two-component vector `vec2` of the toolkit. -/
structure vec2 where
  x : ℚ
  y : ℚ
deriving DecidableEq

/-- Component-wise difference `a - b` of two `vec2`. -/
def vec2.sub (a b : vec2) : vec2 := ⟨a.x - b.x, a.y - b.y⟩

/-- The function `std::min(a, b)`: `(b < a) ? b : a`. -/
def std_min (a b : ℚ) : ℚ := if b < a then b else a

/-- The function `std::max(a, b)`: `(a < b) ? b : a`. -/
def std_max (a b : ℚ) : ℚ := if a < b then b else a

/-- The function `glm::clamp(x, minVal, maxVal)`: `min(max(x, minVal), maxVal)`. -/
def glm_clamp (x minVal maxVal : ℚ) : ℚ := std_min (std_max x minVal) maxVal

/-- What a scroll bar reads from its parent `UIScrollLayout`: the results of
`getScrollRect()` and `getInnerRect()`. -/
structure UIScrollLayout where
  scroll_rect : vec2
  inner_rect : vec2
deriving DecidableEq

/-- The fields of `UIScrollBar` (with the `pos` and `rect` it inherits from
`UIElement`). A null `parent` is `none`. -/
structure UIScrollBar where
  parent : Option UIScrollLayout
  horizontal : Bool
  pos : vec2
  rect : vec2
  bar_rect : vec2
  inverted : Bool
  bar_percent : ℚ
  bar_offset : ℚ
  bar_width : ℚ
  bar_min : ℚ
  bar_step : ℚ
  bar_visual_offset : ℚ
  flip_sides : Bool
  dragging : Bool
  drag_start : vec2
deriving DecidableEq

namespace UIScrollBar

/-- The method `UIScrollBar::reset`. -/
def reset (s : UIScrollBar) : UIScrollBar :=
  { s with bar_offset := 0 }

/-- The method `UIScrollBar::elementAt`; `base` is the inherited
`UIElement::elementAt`, and a null result is `none`. -/
def elementAt {α : Type} (s : UIScrollBar) (base : vec2 → Option α) (pos : vec2) : Option α :=
  if s.bar_percent ≤ 0 then none else base pos

/-- The method `UIScrollBar::idle`. -/
def idle (s : UIScrollBar) : UIScrollBar :=
  { s with dragging := false }

/-- The method `UIScrollBar::drag`. -/
def drag (s : UIScrollBar) (pos : vec2) : UIScrollBar :=
  if s.bar_percent ≤ 0 then s
  else
    let click_offset : ℚ :=
      if s.horizontal then glm_clamp ((pos.x - s.pos.x) / s.rect.x) 0 (1 - s.bar_percent)
      else glm_clamp ((pos.y - s.pos.y) / s.rect.y) 0 (1 - s.bar_percent)
    if !s.dragging then
      let s1 : UIScrollBar :=
        if click_offset < s.bar_offset ∨ click_offset > s.bar_offset + s.bar_percent then
          { s with bar_offset := click_offset }
        else s
      { s1 with drag_start := pos, dragging := true }
    else
      let delta := vec2.sub pos s.drag_start
      let s1 : UIScrollBar := { s with drag_start := pos }
      if s1.horizontal then
        { s1 with bar_offset := glm_clamp (s1.bar_offset + delta.x / s1.rect.x) 0 (1 - s1.bar_percent) }
      else
        { s1 with bar_offset := glm_clamp (s1.bar_offset + delta.y / s1.rect.y) 0 (1 - s1.bar_percent) }

/-- The method `UIScrollBar::mouseWheel`; `lctrl` is `keyState[SDLK_LCTRL]`. -/
def mouseWheel (s : UIScrollBar) (up : Bool) (lctrl : Bool) : UIScrollBar :=
  if s.bar_percent ≤ 0 then s
  else
    let value_inc0 : ℚ := s.bar_step * (1 - s.bar_percent)
    let value_inc1 : ℚ := if up then -value_inc0 else value_inc0
    let value_inc2 : ℚ := if lctrl then value_inc1 * (1 / 10) else value_inc1
    { s with bar_offset := glm_clamp (s.bar_offset + value_inc2) 0 (1 - s.bar_percent) }

/-- The method `UIScrollBar::updateRect`. -/
def updateRect (s : UIScrollBar) : UIScrollBar :=
  match s.parent with
  | none => s
  | some parent =>
    let scroll_rect := parent.scroll_rect
    let inner_rect := parent.inner_rect
    if s.horizontal then
      let rect : vec2 := ⟨scroll_rect.x, s.bar_width⟩
      let bar_percent0 := std_min 1 (scroll_rect.x / inner_rect.x)
      let bar_percent := if bar_percent0 ≥ 1 then 0 else bar_percent0
      { s with
        rect := rect
        bar_percent := bar_percent
        bar_rect := ⟨std_max (s.bar_min / scroll_rect.x) bar_percent * rect.x, s.bar_width⟩
        bar_visual_offset :=
          std_min s.bar_offset (1 - std_max (s.bar_min / parent.scroll_rect.x) bar_percent) }
    else
      let rect : vec2 := ⟨s.bar_width, scroll_rect.y⟩
      let bar_percent0 := std_min 1 (scroll_rect.y / inner_rect.y)
      let bar_percent := if bar_percent0 ≥ 1 then 0 else bar_percent0
      { s with
        rect := rect
        bar_percent := bar_percent
        bar_rect := ⟨s.bar_width, std_max (s.bar_min / scroll_rect.y) bar_percent * rect.y⟩
        bar_visual_offset :=
          std_min s.bar_offset (1 - std_max (s.bar_min / parent.scroll_rect.y) bar_percent) }

/-- The extent of the bar's track along its own axis. -/
def track (s : UIScrollBar) : ℚ := if s.horizontal then s.rect.x else s.rect.y

/-- The scroll position is in range: `0 ≤ bar_offset ≤ 1 - bar_percent`. -/
def InRange (s : UIScrollBar) : Prop :=
  0 ≤ s.bar_offset ∧ s.bar_offset ≤ 1 - s.bar_percent

end UIScrollBar

/-! ## Strings (`std::string`) -/

/-- A `std::string`, and likewise the `string()` of a `boost::filesystem::path`. -/
abbrev Str := List Char

/-- The constant `std::string::npos`, the largest `size_t` (64 bits). -/
def npos : Nat := 2 ^ 64 - 1

/-- Subtraction of two `size_t` values, which wraps around modulo `2 ^ 64`. -/
def size_sub (a b : Nat) : Nat := (a + 2 ^ 64 - b % 2 ^ 64) % 2 ^ 64

/-- Search of `s.find(pat)` from position `i` on: the first position at which
`pat` occurs, `npos` when there is none. -/
def findFrom (pat : Str) : Str → Nat → Nat
  | [], i => if pat.isPrefixOf [] then i else npos
  | c :: cs, i => if pat.isPrefixOf (c :: cs) then i else findFrom pat cs (i + 1)

/-- The call `s.find(pat)`. -/
def find (s pat : Str) : Nat := findFrom pat s 0

/-- Search of `s.rfind(pat)` from position `i` downwards: the highest position
not above `i` at which `pat` occurs, `npos` when there is none. -/
def rfindFrom (s pat : Str) : Nat → Nat
  | 0 => if pat.isPrefixOf s then 0 else npos
  | i + 1 => if pat.isPrefixOf (s.drop (i + 1)) then i + 1 else rfindFrom s pat i

/-- The call `s.rfind(pat)`: the last position at which `pat` occurs, `npos` when
there is none. -/
def rfind (s pat : Str) : Nat := rfindFrom s pat s.length

/-- The algorithm `std::lexicographical_compare` over two character ranges with
the element comparison `comp`. -/
def lexicographical_compare (comp : Char → Char → Bool) : Str → Str → Bool
  | [], [] => false
  | [], _ :: _ => true
  | _ :: _, [] => false
  | a :: as, b :: bs =>
    if comp a b then true
    else if comp b a then false
    else lexicographical_compare comp as bs

/-- The call `boost::ilexicographical_compare(a, b)`: lexicographic comparison
with the case-insensitive element order `is_iless`. -/
def ilexicographical_compare (a b : Str) : Bool :=
  lexicographical_compare (fun x y => decide (x.toUpper.toNat < y.toUpper.toNat)) a b

/-! ## File selector (`src/ui/file_selector.cpp`) -/

/-- What the file selector asks of `boost::filesystem`. A path is identified
with its `string()`.

* `is_directory p` is what the call `is_directory(p)` answers when the status
  of `p` can be obtained; `FallibleFileSystem` adds the paths for which it
  cannot, where the call throws instead;
* `read_dir p` is the content of `directory_iterator(p)` in iteration order, and
  `none` when reading throws a `filesystem_error`;
* `parent_path p` and `filename p` are `p.parent_path()` and `p.filename()`. -/
structure FileSystem where
  is_directory : Str → Bool
  read_dir : Str → Option (List Str)
  parent_path : Str → Str
  filename : Str → Str

/-- A row of the listing: the label text, `path` and `directory` of a
`UIFileSelectorLabel`. -/
structure UIFileSelectorLabel where
  text : Str
  path : Str
  directory : Bool
deriving DecidableEq

/-- The constructor `UIFileSelectorLabel(selector, label, path)`. -/
def UIFileSelectorLabel.new_labelled (fs : FileSystem) (label path : Str) : UIFileSelectorLabel :=
  { text := label, path := path, directory := fs.is_directory path }

/-- The constructor `UIFileSelectorLabel(selector, path)`. -/
def UIFileSelectorLabel.new (fs : FileSystem) (path : Str) : UIFileSelectorLabel :=
  { text := fs.filename path, path := path, directory := fs.is_directory path }

/-- The state of a `UIFileSelector` dialog.

* `dir_path` and `file_path` are the texts of the two input labels;
* `current_filter` is `none` for a null pointer, else the `value` (extension)
  of the selected option;
* `listing` holds the rows of the scroll layout;
* `performed` records, in order, the arguments of the calls `action->perform(..)`;
* `ui_deselects` counts the calls `ui->deselect()`. -/
structure UIFileSelector where
  dir_path : Str
  file_path : Str
  previous_dir : Str
  selected_path : Str
  current_filter : Option Str
  listing : List UIFileSelectorLabel
  performed : List Str
  ui_deselects : Nat
deriving DecidableEq

/-- The comparison `_listing_sort`: directories first, then by file name
ignoring case. -/
def _listing_sort (fs : FileSystem) (a b : Str) : Bool :=
  let dir_a := fs.is_directory a
  let dir_b := fs.is_directory b
  if dir_a != dir_b then (!dir_b && dir_a)
  else ilexicographical_compare (fs.filename a) (fs.filename b)

/-- The call `std::sort(dir_listing.begin(), dir_listing.end(), _listing_sort)`,
as an insertion sort (one of the orders `std::sort` may produce). -/
def sort_listing (fs : FileSystem) (dir_listing : List Str) : List Str :=
  List.insertionSort (fun a b => _listing_sort fs a b = true) dir_listing

/-- The test of the filter in `updateListing`: `true` when the entry is skipped
(`continue`) because of the filter; `pos` is the variable `at` of the source. -/
def filtered_out (fs : FileSystem) (current_filter : Option Str) (l : Str) : Bool :=
  match current_filter with
  | none => false
  | some value =>
    if !value.isEmpty && !fs.is_directory l then
      let filename := fs.filename l
      let pos := rfind filename value
      pos == npos || pos != size_sub filename.length value.length
    else false

/-- One round of the `foreach` loop of `updateListing`: the row added for the
entry `l`, `none` when the round ends in `continue`. -/
def listing_row (fs : FileSystem) (current_filter : Option Str) (l : Str) :
    Option UIFileSelectorLabel :=
  let filename := fs.filename l
  if filename.isEmpty then none
  else if filename.head? == some '.' then none
  else if filtered_out fs current_filter l then none
  else some (UIFileSelectorLabel.new fs l)

/-- The rows the `foreach` loop of `updateListing` adds for the entries. -/
def entry_rows (fs : FileSystem) (current_filter : Option Str) (dir_listing : List Str) :
    List UIFileSelectorLabel :=
  dir_listing.filterMap (listing_row fs current_filter)

/-- The `..` row `updateListing` puts first, when the parent is a directory. -/
def parent_row (fs : FileSystem) (p : Str) : List UIFileSelectorLabel :=
  let parent_path := fs.parent_path p
  if fs.is_directory parent_path && !(parent_path.length == 2 && parent_path[1]? == some ':') then
    [UIFileSelectorLabel.new_labelled fs ['.', '.'] parent_path]
  else []

namespace UIFileSelector

/-- The method `UIFileSelector::updateListing`. The scroll bars of the layout,
which the method resets once the rows are in place, are not part of the state
of the selector kept here. -/
def updateListing (fs : FileSystem) (s : UIFileSelector) : UIFileSelector :=
  if s.dir_path.isEmpty then s
  else
    let p := s.dir_path
    if !fs.is_directory p then s
    else
      match fs.read_dir p with
      | none =>
        if !s.previous_dir.isEmpty && fs.is_directory s.previous_dir then
          { s with dir_path := s.previous_dir, previous_dir := [] }
        else s
      | some entries =>
        let dir_listing := sort_listing fs entries
        { s with listing := parent_row fs p ++ entry_rows fs s.current_filter dir_listing }

/-- The constructor `UIFileSelector::UIFileSelector(title, dir, action)`;
`selected_option` is what `filter_select->getSelectedOption()` returns after
the filter "All Files" has been added. The test of the first `if` is written as
in the source: `!initial_dir.size()` is a `bool`, compared with `2`. -/
def new (fs : FileSystem) (dir : Str) (selected_option : Option Str) : UIFileSelector :=
  let not_size : Nat := if dir.length = 0 then 1 else 0
  let initial_dir : Str :=
    if decide (not_size > 2) && dir[1]? != some ':' &&
        (dir.getLast? == some '/' || dir.getLast? == some (Char.ofNat 92)) then
      dir.take (dir.length - 1)
    else dir
  updateListing fs
    { dir_path := initial_dir
      file_path := []
      previous_dir := []
      selected_path := []
      current_filter := selected_option
      listing := []
      performed := []
      ui_deselects := 0 }

/-- The method `UIFileSelector::changeDir`, with its return value. -/
def changeDir (fs : FileSystem) (s : UIFileSelector) (dir : Str) : UIFileSelector × Bool :=
  if !fs.is_directory dir then (s, false)
  else
    let path_string := dir
    (updateListing fs { s with previous_dir := s.dir_path, dir_path := path_string }, true)

/-- The method `UIFileSelector::selectPath`. -/
def selectPath (fs : FileSystem) (s : UIFileSelector) (path : Str) : UIFileSelector :=
  let s1 : UIFileSelector := { s with selected_path := path }
  if !fs.is_directory s1.selected_path then
    { s1 with file_path := fs.filename s1.selected_path }
  else
    { s1 with file_path := [] }

/-- The method `UIFileSelector::confirm`. -/
def confirm (s : UIFileSelector) : UIFileSelector :=
  { s with performed := s.performed ++ [s.selected_path] }

/-- The `while` loop of `autocomplete`, run for at most `fuel` rounds: `match_str`
loses its last character until it is a prefix of `path_string` or no longer than
`input_path_size`. -/
def shrink_loop (path_string : Str) (input_path_size : Nat) : Nat → Str → Str
  | 0, match_str => match_str
  | fuel + 1, match_str =>
    if !match_str.isEmpty && decide (match_str.length > input_path_size) then
      if find path_string match_str == 0 then match_str
      else shrink_loop path_string input_path_size fuel (match_str.take (match_str.length - 1))
    else match_str

/-- One round of the `foreach` loop of `autocomplete`: the new value of `match`
after the entry `l`. -/
def autocomplete_step (fs : FileSystem) (input : Str) (dirs_only : Bool)
    (match_str : Str) (l : Str) : Str :=
  if dirs_only && !fs.is_directory l then match_str
  else
    let path_string := l
    let filename := fs.filename l
    if filename.isEmpty then match_str
    else if filename.head? == some '.' then match_str
    else if find path_string input == 0 then
      if match_str.isEmpty then path_string
      else shrink_loop path_string input.length match_str.length match_str
    else match_str

/-- The method `UIFileSelector::autocomplete`, as the value it returns on a file
system where every call of `is_directory` answers; `autocomplete_call` follows
the same lines with the `filesystem_error` such a call may throw. The string of
`input_path` is `input` itself. -/
def autocomplete (fs : FileSystem) (input : Str) (dirs_only : Bool) : Str :=
  let parent_path := fs.parent_path input
  if !fs.is_directory parent_path then input
  else
    match fs.read_dir parent_path with
    | none => input
    | some dir_listing =>
      let match_str := dir_listing.foldl (autocomplete_step fs input dirs_only) []
      if match_str.length > input.length then match_str else input

end UIFileSelector

namespace UIFileSelectorLabel

/-- The method `UIFileSelectorLabel::click`. -/
def click (fs : FileSystem) (l : UIFileSelectorLabel) (s : UIFileSelector) : UIFileSelector :=
  if !l.directory then UIFileSelector.selectPath fs s l.path else s

/-- The method `UIFileSelectorLabel::submit`. -/
def submit (fs : FileSystem) (l : UIFileSelectorLabel) (s : UIFileSelector) : UIFileSelector :=
  if l.directory then
    (UIFileSelector.changeDir fs { s with ui_deselects := s.ui_deselects + 1 } l.path).1
  else
    UIFileSelector.confirm (UIFileSelector.selectPath fs s l.path)

/-- The method `UIFileSelectorLabel::doubleClick`. -/
def doubleClick (fs : FileSystem) (l : UIFileSelectorLabel) (s : UIFileSelector) : UIFileSelector :=
  submit fs l s

end UIFileSelectorLabel

/-- The method `UIDirInputLabel::tab`: the path input takes the completion of
its text, directories only. -/
def UIDirInputLabel.tab (fs : FileSystem) (s : UIFileSelector) : UIFileSelector :=
  { s with dir_path := UIFileSelector.autocomplete fs s.dir_path true }

/-- The method `UIFileInputLabel::tab`: the name input takes the completion of
its text; `dirs_only` is the default argument of `autocomplete`. -/
def UIFileInputLabel.tab (fs : FileSystem) (dirs_only : Bool) (s : UIFileSelector) :
    UIFileSelector :=
  { s with file_path := UIFileSelector.autocomplete fs s.file_path dirs_only }

/-! ## File selector: calls of `is_directory` that throw -/

/-- The exception `boost::filesystem::filesystem_error`, with the path whose
status could not be obtained. -/
structure filesystem_error where
  path : Str
deriving DecidableEq

deriving instance DecidableEq for Except

/-- A file system on which the status of some paths cannot be obtained (an
error other than "not found": no search permission on a directory above, a
name that is too long): `status_error p` holds of those paths. -/
structure FallibleFileSystem extends FileSystem where
  status_error : Str → Bool

/-- The call `is_directory(p)` as `boost::filesystem` runs it: it throws a
`filesystem_error` when the status of `p` cannot be obtained and answers
otherwise. -/
def FallibleFileSystem.is_directory_call (fs : FallibleFileSystem) (p : Str) :
    Except filesystem_error Bool :=
  if fs.status_error p then Except.error ⟨p⟩ else Except.ok (fs.is_directory p)

namespace UIFileSelector

/-- The test `dirs_only && !is_directory(l)` of the loop of `autocomplete`:
`is_directory` is called only when `dirs_only` is set, and what it throws
leaves the test. -/
def dirs_only_test (fs : FallibleFileSystem) (dirs_only : Bool) (l : Str) :
    Except filesystem_error Bool :=
  if dirs_only then
    match fs.is_directory_call l with
    | Except.error e => Except.error e
    | Except.ok d => Except.ok (!d)
  else Except.ok false

/-- One round of the `foreach` loop of `autocomplete` with the exception: the
new value of `match` after the entry `l`, or what `is_directory(l)` throws. -/
def autocomplete_step_call (fs : FallibleFileSystem) (input : Str) (dirs_only : Bool)
    (match_str : Str) (l : Str) : Except filesystem_error Str :=
  match dirs_only_test fs dirs_only l with
  | Except.error e => Except.error e
  | Except.ok true => Except.ok match_str
  | Except.ok false =>
    let path_string := l
    let filename := fs.filename l
    if filename.isEmpty then Except.ok match_str
    else if filename.head? == some '.' then Except.ok match_str
    else if find path_string input == 0 then
      if match_str.isEmpty then Except.ok path_string
      else Except.ok (shrink_loop path_string input.length match_str.length match_str)
    else Except.ok match_str

/-- The `foreach` loop of `autocomplete` with the exception: the rounds follow
one another until one throws. The loop is outside the `try` block. -/
def autocomplete_loop_call (fs : FallibleFileSystem) (input : Str) (dirs_only : Bool) :
    List Str → Str → Except filesystem_error Str
  | [], match_str => Except.ok match_str
  | l :: rest, match_str =>
    match autocomplete_step_call fs input dirs_only match_str l with
    | Except.error e => Except.error e
    | Except.ok next_match => autocomplete_loop_call fs input dirs_only rest next_match

/-- The method `UIFileSelector::autocomplete` with the exception: the string
returned, or the `filesystem_error` that leaves the method. The call
`is_directory(parent_path)` and the `foreach` loop are outside the `try` block,
which holds the reading of the directory alone. -/
def autocomplete_call (fs : FallibleFileSystem) (input : Str) (dirs_only : Bool) :
    Except filesystem_error Str :=
  let parent_path := fs.parent_path input
  match fs.is_directory_call parent_path with
  | Except.error e => Except.error e
  | Except.ok parent_is_directory =>
    if !parent_is_directory then Except.ok input
    else
      match fs.read_dir parent_path with
      | none => Except.ok input
      | some dir_listing =>
        match autocomplete_loop_call fs input dirs_only dir_listing [] with
        | Except.error e => Except.error e
        | Except.ok match_str =>
          if match_str.length > input.length then Except.ok match_str else Except.ok input

end UIFileSelector

/-- The method `UIDirInputLabel::tab` with the exception: `setText` is reached
only when `autocomplete` returns. -/
def UIDirInputLabel.tab_call (fs : FallibleFileSystem) (s : UIFileSelector) :
    Except filesystem_error UIFileSelector :=
  match UIFileSelector.autocomplete_call fs s.dir_path true with
  | Except.error e => Except.error e
  | Except.ok text => Except.ok { s with dir_path := text }

/-! ## Notions used in the statements -/

/-- The entries `autocomplete` completes from: file name non-empty and not
starting with a dot, a directory when `dirs_only` is set, path starting with
`input`. -/
def is_candidate (fs : FileSystem) (input : Str) (dirs_only : Bool) (l : Str) : Bool :=
  decide (fs.filename l ≠ []) && decide ((fs.filename l).head? ≠ some '.') &&
    (!dirs_only || fs.is_directory l) && decide (input <+: l)

/-- The candidates among the entries of a directory, in the order of the
entries. -/
def candidates (fs : FileSystem) (input : Str) (dirs_only : Bool) (entries : List Str) :
    List Str :=
  entries.filter (is_candidate fs input dirs_only)

/-- What a round of the loop of `autocomplete` does with a candidate: the first
one is taken whole, a later one cuts `match` down. -/
def candidate_step (input : Str) (match_str : Str) (l : Str) : Str :=
  if match_str.isEmpty then l
  else UIFileSelector.shrink_loop l input.length match_str.length match_str

/-- The visible extent of the layout along the axis of a bar: the component
of `getScrollRect()` on that axis. -/
def UIScrollLayout.visible_extent (p : UIScrollLayout) (horizontal : Bool) : ℚ :=
  if horizontal then p.scroll_rect.x else p.scroll_rect.y

/-- The content extent of the layout along the axis of a bar: the component
of `getInnerRect()` on that axis. -/
def UIScrollLayout.content_extent (p : UIScrollLayout) (horizontal : Bool) : ℚ :=
  if horizontal then p.inner_rect.x else p.inner_rect.y

/-- The two assignments to `bar_percent` in `updateRect`, as a function of the
visible extent `sv` and the content extent `c` along the axis. -/
def visible_fraction (sv c : ℚ) : ℚ :=
  if std_min 1 (sv / c) ≥ 1 then 0 else std_min 1 (sv / c)

/-! ## Example data -/

/-- The parent path of a path in the example file system: what precedes the
last slash, the root for an entry of the root. -/
def example_parent_path (p : Str) : Str :=
  let before := ((p.reverse.dropWhile (fun c => c != '/')).drop 1).reverse
  if before.isEmpty && p.head? == some '/' && decide (p.length > 1) then ['/'] else before

/-- The file name of a path in the example file system: what follows the last
slash. -/
def example_filename (p : Str) : Str :=
  (p.reverse.takeWhile (fun c => c != '/')).reverse

/-- The entries of the directory `/home` of the example file system. -/
def example_entries : List Str :=
  ["/home/down".toList, "/home/notes.txt".toList, "/home/.cache".toList, "/home/docs".toList]

/-- An example file system: the directory `/home` holds the directories `docs`,
`down` and `.cache` and the file `notes.txt`; `/home/down` cannot be read. -/
def example_fs : FileSystem :=
  { is_directory := fun p =>
      p == "/".toList || p == "/home".toList || p == "/home/docs".toList ||
        p == "/home/down".toList || p == "/home/.cache".toList
    read_dir := fun p =>
      if p == "/home".toList then some example_entries
      else if p == "/".toList then some ["/home".toList]
      else if p == "/home/docs".toList then some []
      else none
    parent_path := example_parent_path
    filename := example_filename }

/-- The example file system with a directory `/private` that may not be
searched: the status of no path below it can be obtained. -/
def example_private_fs : FallibleFileSystem :=
  { toFileSystem := example_fs
    status_error := fun p => "/private/".toList.isPrefixOf p }

/-- A file system whose directory `/inbox` may be read but not searched: its
entries are listed, and their status cannot be obtained. -/
def example_inbox_fs : FallibleFileSystem :=
  { is_directory := fun p => p == "/".toList || p == "/inbox".toList
    read_dir := fun p =>
      if p == "/inbox".toList then some ["/inbox/a.txt".toList, "/inbox/archive".toList]
      else if p == "/".toList then some ["/inbox".toList]
      else none
    parent_path := example_parent_path
    filename := example_filename
    status_error := fun p => "/inbox/".toList.isPrefixOf p }

/-- A selector showing `/home` of the example file system with the filter
`.txt` selected. -/
def example_selector : UIFileSelector :=
  { dir_path := "/home".toList
    file_path := []
    previous_dir := []
    selected_path := []
    current_filter := some ".txt".toList
    listing := []
    performed := []
    ui_deselects := 0 }

/-- A layout showing 100 of 400 units of content vertically. -/
def example_layout : UIScrollLayout :=
  { scroll_rect := ⟨420, 100⟩, inner_rect := ⟨420, 400⟩ }

/-- A vertical bar as the constructor leaves it, attached to `example_layout`. -/
def example_bar : UIScrollBar :=
  { parent := some example_layout
    horizontal := false
    pos := ⟨0, 0⟩
    rect := ⟨12, 100⟩
    bar_rect := ⟨0, 0⟩
    inverted := false
    bar_percent := 0
    bar_offset := 0
    bar_width := 12
    bar_min := 10
    bar_step := 1 / 10
    bar_visual_offset := 0
    flip_sides := false
    dragging := false
    drag_start := ⟨0, 0⟩ }

/-- The bar `example_bar` scrolled half way, a quarter of the content visible. -/
def example_bar_scrolled : UIScrollBar :=
  { example_bar with bar_percent := 1 / 4, bar_offset := 1 / 2 }

/-! ### Scroll bar lemmas -/

theorem glm_clamp_ge (x lo hi : ℚ) (h : lo ≤ hi) : lo ≤ glm_clamp x lo hi := by
  unfold glm_clamp std_min std_max
  split_ifs <;> linarith

theorem glm_clamp_le (x lo hi : ℚ) : glm_clamp x lo hi ≤ hi := by
  unfold glm_clamp std_min std_max
  split_ifs <;> linarith

theorem UIScrollBar.drag_bar_percent (s : UIScrollBar) (pos : vec2) :
    (s.drag pos).bar_percent = s.bar_percent := by
  unfold UIScrollBar.drag
  dsimp only
  split_ifs <;> rfl

theorem UIScrollBar.mouseWheel_bar_percent (s : UIScrollBar) (up lctrl : Bool) :
    (s.mouseWheel up lctrl).bar_percent = s.bar_percent := by
  unfold UIScrollBar.mouseWheel
  dsimp only
  split_ifs <;> rfl

/-- The value `updateRect` stores in `bar_percent`, from the visible extent `sv`
and the content extent `c` along the axis. -/
theorem visible_fraction_spec (sv c : ℚ) (hs : 0 < sv) (hc : 0 < c) :
    (c > sv → visible_fraction sv c = sv / c) ∧
    (c ≤ sv → visible_fraction sv c = 0) ∧
    0 ≤ visible_fraction sv c ∧ visible_fraction sv c < 1 := by
  have hlt : sv / c < 1 ↔ sv < c := div_lt_one hc
  have hpos : 0 < sv / c := div_pos hs hc
  unfold visible_fraction std_min
  by_cases hcs : sv < c
  · have h1 : sv / c < 1 := hlt.mpr hcs
    rw [if_pos h1, if_neg (not_le.mpr h1)]
    exact ⟨fun _ => rfl, fun h => absurd hcs (not_lt.mpr h), le_of_lt hpos, h1⟩
  · have h1 : ¬ sv / c < 1 := fun h => hcs (hlt.mp h)
    rw [if_neg h1, if_pos (le_refl (1 : ℚ))]
    exact ⟨fun h => absurd h hcs, fun _ => rfl, le_refl 0, by norm_num⟩

/-! ### String lemmas -/

theorem npos_pos : 0 < npos := by decide

theorem findFrom_succ_ne_zero (pat s : Str) (i : Nat) : findFrom pat s (i + 1) ≠ 0 := by
  induction s generalizing i with
  | nil =>
    unfold findFrom
    split_ifs
    · exact Nat.succ_ne_zero i
    · exact Nat.pos_iff_ne_zero.mp npos_pos
  | cons c cs ih =>
    unfold findFrom
    split_ifs
    · exact Nat.succ_ne_zero i
    · exact ih (i + 1)

/-- The test `s.find(pat) == 0` holds exactly when `pat` is a prefix of `s`. -/
theorem find_eq_zero_iff (s pat : Str) : find s pat = 0 ↔ pat <+: s := by
  unfold find
  cases s with
  | nil =>
    unfold findFrom
    by_cases h : pat.isPrefixOf [] = true
    · rw [if_pos h]
      exact ⟨fun _ => List.isPrefixOf_iff_prefix.mp h, fun _ => rfl⟩
    · rw [if_neg h]
      constructor
      · intro h0
        exact absurd h0 (Nat.pos_iff_ne_zero.mp npos_pos)
      · intro hp
        exact absurd (List.isPrefixOf_iff_prefix.mpr hp) h
  | cons c cs =>
    unfold findFrom
    by_cases h : pat.isPrefixOf (c :: cs) = true
    · rw [if_pos h]
      exact ⟨fun _ => List.isPrefixOf_iff_prefix.mp h, fun _ => rfl⟩
    · rw [if_neg h]
      constructor
      · intro h0
        exact absurd h0 (findFrom_succ_ne_zero pat cs 0)
      · intro hp
        exact absurd (List.isPrefixOf_iff_prefix.mpr hp) h

theorem find_beq_zero (s pat : Str) : (find s pat == 0) = decide (pat <+: s) := by
  by_cases h : pat <+: s
  · have := (find_eq_zero_iff s pat).mpr h
    simp [this, h]
  · have : find s pat ≠ 0 := fun h0 => h ((find_eq_zero_iff s pat).mp h0)
    simp [this, h]

/-- A call of `drag` keeps the scroll position in range. -/
theorem drag_in_range (s : UIScrollBar) (hp1 : s.bar_percent < 1) (hin : s.InRange)
    (pos : vec2) : (s.drag pos).InRange := by
  have hhi : (0 : ℚ) ≤ 1 - s.bar_percent := by linarith
  obtain ⟨hlo, hup⟩ := hin
  unfold UIScrollBar.InRange UIScrollBar.drag
  dsimp only
  split_ifs <;>
    first
    | exact ⟨hlo, hup⟩
    | exact ⟨glm_clamp_ge _ _ _ hhi, glm_clamp_le _ _ _⟩

/-! ### Scroll bar: the claims -/

/-- C3: after `updateRect` on a bar with a parent layout whose visible extent `s`
and content extent `c` along the bar's axis are positive, `bar_percent` is `s / c`
when `c > s` and `0` when `c ≤ s`; in both cases it lies in `[0, 1)`. -/
theorem UIScrollBar.updateRect_bar_percent (s : UIScrollBar) (parent : UIScrollLayout)
    (hparent : s.parent = some parent)
    (hs : 0 < parent.visible_extent s.horizontal)
    (hc : 0 < parent.content_extent s.horizontal) :
    (parent.content_extent s.horizontal > parent.visible_extent s.horizontal →
        s.updateRect.bar_percent
          = parent.visible_extent s.horizontal / parent.content_extent s.horizontal) ∧
    (parent.content_extent s.horizontal ≤ parent.visible_extent s.horizontal →
        s.updateRect.bar_percent = 0) ∧
    0 ≤ s.updateRect.bar_percent ∧ s.updateRect.bar_percent < 1 := by
  have hval : s.updateRect.bar_percent =
      visible_fraction (parent.visible_extent s.horizontal)
        (parent.content_extent s.horizontal) := by
    unfold UIScrollBar.updateRect UIScrollLayout.visible_extent
      UIScrollLayout.content_extent visible_fraction
    rw [hparent]
    cases s.horizontal <;> rfl
  rw [hval]
  exact visible_fraction_spec _ _ hs hc

theorem UIScrollBar.updateRect_bar_percent_witness :
    (0 < example_layout.visible_extent example_bar.horizontal ∧
      0 < example_layout.content_extent example_bar.horizontal) ∧
    ((example_layout.content_extent example_bar.horizontal
          > example_layout.visible_extent example_bar.horizontal →
        example_bar.updateRect.bar_percent
          = example_layout.visible_extent example_bar.horizontal
            / example_layout.content_extent example_bar.horizontal) ∧
    (example_layout.content_extent example_bar.horizontal
          ≤ example_layout.visible_extent example_bar.horizontal →
        example_bar.updateRect.bar_percent = 0) ∧
    0 ≤ example_bar.updateRect.bar_percent ∧ example_bar.updateRect.bar_percent < 1) :=
  ⟨⟨by norm_num [UIScrollLayout.visible_extent, example_layout, example_bar],
      by norm_num [UIScrollLayout.content_extent, example_layout, example_bar]⟩,
    UIScrollBar.updateRect_bar_percent example_bar example_layout rfl
      (by norm_num [UIScrollLayout.visible_extent, example_layout, example_bar])
      (by norm_num [UIScrollLayout.content_extent, example_layout, example_bar])⟩

/-- C7: on an invisible bar (`bar_percent ≤ 0`) `elementAt` returns no element at
any position, and `drag` and `mouseWheel` return the state they were given, so
`bar_offset`, `dragging` and `drag_start` are unchanged. -/
theorem UIScrollBar.invisible_inert {α : Type} (s : UIScrollBar) (h : s.bar_percent ≤ 0)
    (base : vec2 → Option α) (pos : vec2) (up lctrl : Bool) :
    s.elementAt base pos = none ∧
    s.drag pos = s ∧
    s.mouseWheel up lctrl = s ∧
    ((s.drag pos).bar_offset = s.bar_offset ∧ (s.drag pos).dragging = s.dragging ∧
      (s.drag pos).drag_start = s.drag_start) ∧
    ((s.mouseWheel up lctrl).bar_offset = s.bar_offset ∧
      (s.mouseWheel up lctrl).dragging = s.dragging ∧
      (s.mouseWheel up lctrl).drag_start = s.drag_start) := by
  have hd : s.drag pos = s := by unfold UIScrollBar.drag; rw [if_pos h]
  have hw : s.mouseWheel up lctrl = s := by unfold UIScrollBar.mouseWheel; rw [if_pos h]
  refine ⟨?_, hd, hw, ?_, ?_⟩
  · unfold UIScrollBar.elementAt; rw [if_pos h]
  · rw [hd]; exact ⟨rfl, rfl, rfl⟩
  · rw [hw]; exact ⟨rfl, rfl, rfl⟩

theorem UIScrollBar.invisible_inert_witness :
    example_bar.bar_percent ≤ 0 ∧
    (example_bar.elementAt (fun _ => some ()) ⟨5, 50⟩ = none ∧
    example_bar.drag ⟨5, 50⟩ = example_bar ∧
    example_bar.mouseWheel true false = example_bar ∧
    ((example_bar.drag ⟨5, 50⟩).bar_offset = example_bar.bar_offset ∧
      (example_bar.drag ⟨5, 50⟩).dragging = example_bar.dragging ∧
      (example_bar.drag ⟨5, 50⟩).drag_start = example_bar.drag_start) ∧
    ((example_bar.mouseWheel true false).bar_offset = example_bar.bar_offset ∧
      (example_bar.mouseWheel true false).dragging = example_bar.dragging ∧
      (example_bar.mouseWheel true false).drag_start = example_bar.drag_start)) :=
  ⟨by norm_num [example_bar],
    UIScrollBar.invisible_inert example_bar (by norm_num [example_bar])
      (fun _ => some ()) ⟨5, 50⟩ true false⟩

/-- C8: from a state with `0 ≤ bar_percent < 1`, a positive track extent and
`0 ≤ bar_offset ≤ 1 - bar_percent`, the state after `reset`, after `drag` at any
position (whether or not a drag is under way, and again after a second `drag`)
and after `mouseWheel` in either direction with or without Ctrl again has
`0 ≤ bar_offset ≤ 1 - bar_percent`, and `bar_percent` is the same as before. -/
theorem UIScrollBar.in_range_preserved (s : UIScrollBar)
    (hp0 : 0 ≤ s.bar_percent) (hp1 : s.bar_percent < 1) (htrack : 0 < s.track)
    (hin : s.InRange) :
    s.reset.InRange ∧
    (∀ pos : vec2, (s.drag pos).InRange ∧ (s.drag pos).bar_percent = s.bar_percent) ∧
    (∀ first later : vec2, ((s.drag first).drag later).InRange) ∧
    (∀ up lctrl : Bool, (s.mouseWheel up lctrl).InRange ∧
      (s.mouseWheel up lctrl).bar_percent = s.bar_percent) := by
  have hhi : (0 : ℚ) ≤ 1 - s.bar_percent := by linarith
  refine ⟨⟨le_refl 0, hhi⟩,
    fun pos => ⟨drag_in_range s hp1 hin pos, s.drag_bar_percent pos⟩,
    fun first later => ?_,
    fun up lctrl => ⟨?_, s.mouseWheel_bar_percent up lctrl⟩⟩
  · exact drag_in_range (s.drag first) (by rw [s.drag_bar_percent first]; exact hp1)
      (drag_in_range s hp1 hin first) later
  · obtain ⟨hlo, hup⟩ := hin
    unfold UIScrollBar.InRange UIScrollBar.mouseWheel
    dsimp only
    split_ifs <;>
      first
      | exact ⟨hlo, hup⟩
      | exact ⟨glm_clamp_ge _ _ _ hhi, glm_clamp_le _ _ _⟩

theorem UIScrollBar.in_range_preserved_witness :
    (0 ≤ example_bar_scrolled.bar_percent ∧ example_bar_scrolled.bar_percent < 1 ∧
      0 < example_bar_scrolled.track ∧ example_bar_scrolled.InRange) ∧
    (example_bar_scrolled.reset.InRange ∧
    (∀ pos : vec2, (example_bar_scrolled.drag pos).InRange ∧
      (example_bar_scrolled.drag pos).bar_percent = example_bar_scrolled.bar_percent) ∧
    (∀ first later : vec2, ((example_bar_scrolled.drag first).drag later).InRange) ∧
    (∀ up lctrl : Bool, (example_bar_scrolled.mouseWheel up lctrl).InRange ∧
      (example_bar_scrolled.mouseWheel up lctrl).bar_percent
        = example_bar_scrolled.bar_percent)) :=
  ⟨⟨by norm_num [example_bar_scrolled, example_bar],
      by norm_num [example_bar_scrolled, example_bar],
      by norm_num [UIScrollBar.track, example_bar_scrolled, example_bar],
      by norm_num [UIScrollBar.InRange, example_bar_scrolled, example_bar]⟩,
    UIScrollBar.in_range_preserved example_bar_scrolled
      (by norm_num [example_bar_scrolled, example_bar])
      (by norm_num [example_bar_scrolled, example_bar])
      (by norm_num [UIScrollBar.track, example_bar_scrolled, example_bar])
      (by norm_num [UIScrollBar.InRange, example_bar_scrolled, example_bar])⟩

/-! ### File selector: the loop of `autocomplete` -/

open UIFileSelector

/-- The loop only removes characters at the end. -/
theorem shrink_loop_prefix_self (ps : Str) (n fuel : Nat) (m : Str) :
    shrink_loop ps n fuel m <+: m := by
  induction fuel generalizing m with
  | zero => exact List.prefix_refl m
  | succ k ih =>
    unfold shrink_loop
    split_ifs
    · exact List.prefix_refl m
    · exact (ih _).trans (List.take_prefix _ m)
    · exact List.prefix_refl m

/-- A round of the loop of `autocomplete` leaves `match` alone unless the entry
is a candidate. -/
theorem autocomplete_step_eq (fs : FileSystem) (input : Str) (dirs_only : Bool)
    (m l : Str) :
    autocomplete_step fs input dirs_only m l =
      if is_candidate fs input dirs_only l then candidate_step input m l else m := by
  unfold autocomplete_step is_candidate candidate_step
  dsimp only
  rw [find_beq_zero]
  cases dirs_only <;> cases fs.is_directory l <;> cases hfn : fs.filename l <;>
    by_cases hp : input <+: l <;> simp [hp]

/-- The loop of `autocomplete` over the entries is the loop over the
candidates alone. -/
theorem foldl_autocomplete_step (fs : FileSystem) (input : Str) (dirs_only : Bool)
    (entries : List Str) (m : Str) :
    entries.foldl (autocomplete_step fs input dirs_only) m =
      (candidates fs input dirs_only entries).foldl (candidate_step input) m := by
  induction entries generalizing m with
  | nil => rfl
  | cons l ls ih =>
    rw [List.foldl_cons, autocomplete_step_eq, ih]
    unfold candidates
    by_cases hc : is_candidate fs input dirs_only l = true
    · rw [if_pos hc, List.filter_cons_of_pos hc, List.foldl_cons]
    · rw [if_neg hc, List.filter_cons_of_neg hc]

theorem mem_candidates {fs : FileSystem} {input : Str} {dirs_only : Bool}
    {entries : List Str} {l : Str} :
    l ∈ candidates fs input dirs_only entries ↔
      l ∈ entries ∧ is_candidate fs input dirs_only l = true := by
  unfold candidates
  exact List.mem_filter

theorem candidate_starts_with_input {fs : FileSystem} {input : Str} {dirs_only : Bool}
    {entries : List Str} {l : Str} (h : l ∈ candidates fs input dirs_only entries) :
    input <+: l := by
  have h2 := (mem_candidates.mp h).2
  unfold is_candidate at h2
  simp only [Bool.and_eq_true, decide_eq_true_eq] at h2
  exact h2.2

/-- The value of `autocomplete` when the parent path is a directory that can be
read. -/
theorem autocomplete_of_listing (fs : FileSystem) (input : Str) (dirs_only : Bool)
    (entries : List Str) (hdir : fs.is_directory (fs.parent_path input) = true)
    (hread : fs.read_dir (fs.parent_path input) = some entries) :
    autocomplete fs input dirs_only =
      if ((candidates fs input dirs_only entries).foldl (candidate_step input) []).length
          > input.length
      then (candidates fs input dirs_only entries).foldl (candidate_step input) []
      else input := by
  unfold autocomplete
  simp only [hdir, hread, Bool.not_true, Bool.false_eq_true, if_false,
    foldl_autocomplete_step]

/-- Whatever the candidates, `match` is empty or a prefix of some string that
starts with `input`. -/
theorem foldl_candidate_step_covered (input : Str) (cs : List Str) (m : Str)
    (hcs : ∀ c ∈ cs, input <+: c)
    (hm : m = [] ∨ ∃ c : Str, input <+: c ∧ m <+: c) :
    cs.foldl (candidate_step input) m = [] ∨
      ∃ c : Str, input <+: c ∧ cs.foldl (candidate_step input) m <+: c := by
  induction cs generalizing m with
  | nil => exact hm
  | cons c cs ih =>
    rw [List.foldl_cons]
    apply ih _ (fun d hd => hcs d (List.mem_cons_of_mem c hd))
    unfold candidate_step
    by_cases he : m.isEmpty = true
    · rw [if_pos he]
      exact Or.inr ⟨c, hcs c (List.mem_cons_self c cs), List.prefix_refl c⟩
    · rw [if_neg he]
      rcases hm with h | ⟨d, hd1, hd2⟩
      · rw [h] at he
        exact absurd rfl he
      · exact Or.inr ⟨d, hd1, (shrink_loop_prefix_self _ _ _ _).trans hd2⟩

/-- On a file system where every call of `is_directory` answers, `input` is a
prefix of what `autocomplete` returns, which is thus no shorter; when the parent
path is not a directory or cannot be read the result is `input`; hence the
text of either input label after `tab` starts with its text before. -/
theorem autocomplete_extends_input (fs : FileSystem) (input : Str) (dirs_only : Bool) :
    input <+: autocomplete fs input dirs_only ∧
    input.length ≤ (autocomplete fs input dirs_only).length ∧
    ((fs.is_directory (fs.parent_path input) = false ∨
        fs.read_dir (fs.parent_path input) = none) →
      autocomplete fs input dirs_only = input) ∧
    (∀ s : UIFileSelector, s.dir_path <+: (UIDirInputLabel.tab fs s).dir_path) ∧
    (∀ s : UIFileSelector, s.file_path <+: (UIFileInputLabel.tab fs dirs_only s).file_path) := by
  have key : ∀ (text : Str) (d : Bool), text <+: autocomplete fs text d := by
    intro text d
    cases hdir : fs.is_directory (fs.parent_path text) with
    | false =>
      unfold autocomplete
      simp only [hdir, Bool.not_false, if_true]
      exact List.prefix_refl text
    | true =>
      cases hread : fs.read_dir (fs.parent_path text) with
      | none =>
        unfold autocomplete
        simp only [hdir, hread, Bool.not_true, Bool.false_eq_true, if_false]
        exact List.prefix_refl text
      | some entries =>
        rw [autocomplete_of_listing fs text d entries hdir hread]
        by_cases hlen : ((candidates fs text d entries).foldl (candidate_step text) []).length
            > text.length
        · rw [if_pos hlen]
          rcases foldl_candidate_step_covered text (candidates fs text d entries) []
              (fun c hc => candidate_starts_with_input hc) (Or.inl rfl) with h | ⟨c, hc1, hc2⟩
          · rw [h] at hlen
            exact absurd hlen (Nat.not_lt_zero _)
          · exact List.prefix_of_prefix_length_le hc1 hc2 (Nat.le_of_lt hlen)
        · rw [if_neg hlen]
  refine ⟨key input dirs_only, (key input dirs_only).length_le, ?_,
    fun s => key s.dir_path true, fun s => key s.file_path dirs_only⟩
  intro h
  unfold autocomplete
  rcases h with h | h
  · simp only [h, Bool.not_false, if_true]
  · simp only [h, ite_self]

/-! ### File selector: `autocomplete` when `is_directory` throws -/

theorem dirs_only_test_ok (fs : FallibleFileSystem) (dirs_only : Bool) (l : Str)
    (h : dirs_only = true → fs.status_error l = false) :
    dirs_only_test fs dirs_only l = Except.ok (dirs_only && !fs.is_directory l) := by
  unfold dirs_only_test FallibleFileSystem.is_directory_call
  cases dirs_only with
  | false => rfl
  | true =>
    rw [h rfl]
    rfl

/-- A round of the loop in which `is_directory` answers gives the value of
`autocomplete_step`. -/
theorem autocomplete_step_call_ok (fs : FallibleFileSystem) (input : Str) (dirs_only : Bool)
    (m l : Str) (h : dirs_only = true → fs.status_error l = false) :
    autocomplete_step_call fs input dirs_only m l
      = Except.ok (autocomplete_step fs.toFileSystem input dirs_only m l) := by
  unfold autocomplete_step_call autocomplete_step
  rw [dirs_only_test_ok fs dirs_only l h]
  cases hskip : (dirs_only && !fs.is_directory l)
  · dsimp only
    simp only [Bool.false_eq_true, if_false]
    split_ifs <;> rfl
  · dsimp only
    simp only [if_true]

/-- A round of the loop that returns has the value of `autocomplete_step`. -/
theorem autocomplete_step_call_eq_ok (fs : FallibleFileSystem) (input : Str)
    (dirs_only : Bool) (m l r : Str)
    (h : autocomplete_step_call fs input dirs_only m l = Except.ok r) :
    r = autocomplete_step fs.toFileSystem input dirs_only m l := by
  by_cases herr : dirs_only = true → fs.status_error l = false
  · rw [autocomplete_step_call_ok fs input dirs_only m l herr] at h
    exact (Except.ok.inj h).symm
  · have hd : dirs_only = true := by
      by_contra hn
      exact herr (fun h1 => absurd h1 hn)
    have hs : fs.status_error l = true := by
      cases hs : fs.status_error l with
      | true => rfl
      | false => exact absurd (fun _ => hs) herr
    unfold autocomplete_step_call dirs_only_test FallibleFileSystem.is_directory_call at h
    rw [hd, hs] at h
    simp at h

/-- A round of the loop throws when `dirs_only` is set and the status of the
entry cannot be obtained. -/
theorem autocomplete_step_call_error (fs : FallibleFileSystem) (input : Str) (m l : Str)
    (h : fs.status_error l = true) :
    autocomplete_step_call fs input true m l = Except.error ⟨l⟩ := by
  unfold autocomplete_step_call dirs_only_test FallibleFileSystem.is_directory_call
  rw [h]
  rfl

theorem autocomplete_loop_call_ok (fs : FallibleFileSystem) (input : Str) (dirs_only : Bool)
    (entries : List Str) (m : Str)
    (h : dirs_only = true → ∀ l ∈ entries, fs.status_error l = false) :
    autocomplete_loop_call fs input dirs_only entries m
      = Except.ok (entries.foldl (autocomplete_step fs.toFileSystem input dirs_only) m) := by
  induction entries generalizing m with
  | nil => rfl
  | cons l ls ih =>
    unfold autocomplete_loop_call
    rw [autocomplete_step_call_ok fs input dirs_only m l
      (fun hd => h hd l (List.mem_cons_self l ls))]
    exact ih _ (fun hd e he => h hd e (List.mem_cons_of_mem l he))

theorem autocomplete_loop_call_eq_ok (fs : FallibleFileSystem) (input : Str)
    (dirs_only : Bool) (entries : List Str) (m r : Str)
    (h : autocomplete_loop_call fs input dirs_only entries m = Except.ok r) :
    r = entries.foldl (autocomplete_step fs.toFileSystem input dirs_only) m := by
  induction entries generalizing m with
  | nil =>
    unfold autocomplete_loop_call at h
    exact (Except.ok.inj h).symm
  | cons l ls ih =>
    unfold autocomplete_loop_call at h
    cases hstep : autocomplete_step_call fs input dirs_only m l with
    | error e =>
      rw [hstep] at h
      simp at h
    | ok next_match =>
      rw [hstep] at h
      rw [List.foldl_cons,
        ← autocomplete_step_call_eq_ok fs input dirs_only m l next_match hstep]
      exact ih next_match h

/-- When the status of the parent path can be obtained, and that of every
entry if `dirs_only` is set, the method returns, and returns the value of
`autocomplete`. -/
theorem autocomplete_call_ok (fs : FallibleFileSystem) (input : Str) (dirs_only : Bool)
    (hparent : fs.status_error (fs.parent_path input) = false)
    (hentries : dirs_only = true → ∀ entries, fs.read_dir (fs.parent_path input) = some entries →
      ∀ l ∈ entries, fs.status_error l = false) :
    autocomplete_call fs input dirs_only
      = Except.ok (autocomplete fs.toFileSystem input dirs_only) := by
  unfold autocomplete_call autocomplete FallibleFileSystem.is_directory_call
  dsimp only
  rw [hparent]
  simp only [Bool.false_eq_true, if_false]
  cases hdir : fs.is_directory (fs.parent_path input) with
  | false => rfl
  | true =>
    simp only [Bool.not_true, Bool.false_eq_true, if_false]
    cases hread : fs.read_dir (fs.parent_path input) with
    | none => rfl
    | some entries =>
      simp only
      rw [autocomplete_loop_call_ok fs input dirs_only entries []
        (fun hd => hentries hd entries hread)]
      simp only
      split_ifs <;> rfl

/-- Whenever the method returns, it returns the value of `autocomplete`. -/
theorem autocomplete_call_eq_ok (fs : FallibleFileSystem) (input : Str) (dirs_only : Bool)
    (r : Str) (h : autocomplete_call fs input dirs_only = Except.ok r) :
    r = autocomplete fs.toFileSystem input dirs_only := by
  unfold autocomplete_call FallibleFileSystem.is_directory_call at h
  unfold autocomplete
  dsimp only at h ⊢
  cases hs : fs.status_error (fs.parent_path input) with
  | true =>
    rw [hs] at h
    simp at h
  | false =>
    rw [hs] at h
    simp only [Bool.false_eq_true, if_false] at h
    cases hdir : fs.is_directory (fs.parent_path input) with
    | false =>
      rw [hdir] at h
      simp only [Bool.not_false, if_true] at h ⊢
      exact (Except.ok.inj h).symm
    | true =>
      rw [hdir] at h
      simp only [Bool.not_true, Bool.false_eq_true, if_false] at h ⊢
      cases hread : fs.read_dir (fs.parent_path input) with
      | none =>
        rw [hread] at h
        exact (Except.ok.inj h).symm
      | some entries =>
        rw [hread] at h
        simp only at h ⊢
        cases hloop : autocomplete_loop_call fs input dirs_only entries [] with
        | error e =>
          rw [hloop] at h
          simp at h
        | ok match_str =>
          rw [hloop] at h
          simp only at h
          rw [← autocomplete_loop_call_eq_ok fs input dirs_only entries [] match_str hloop]
          split_ifs at h ⊢ <;> exact (Except.ok.inj h).symm

/-- Whenever the method returns a string, `input` is a prefix of it. -/
theorem autocomplete_call_extends_input (fs : FallibleFileSystem) (input : Str)
    (dirs_only : Bool) (r : Str) (h : autocomplete_call fs input dirs_only = Except.ok r) :
    input <+: r := by
  rw [autocomplete_call_eq_ok fs input dirs_only r h]
  exact (autocomplete_extends_input fs.toFileSystem input dirs_only).1

/-- When the status of the parent path cannot be obtained the method throws,
whatever the listing and `dirs_only`. -/
theorem autocomplete_call_error (fs : FallibleFileSystem) (input : Str) (dirs_only : Bool)
    (h : fs.status_error (fs.parent_path input) = true) :
    autocomplete_call fs input dirs_only = Except.error ⟨fs.parent_path input⟩ := by
  unfold autocomplete_call FallibleFileSystem.is_directory_call
  dsimp only
  rw [h]
  rfl

/-- C2, on the code: for the input `/private/docs/re`, whose parent path has a
status that cannot be obtained, `autocomplete` returns no string for either
value of `dirs_only`: the `filesystem_error` of `is_directory(parent_path)`
leaves it, and `tab` does not set the text. For the input `/inbox/ar` with
`dirs_only` set, in a directory that is read but whose entries have no status,
the `filesystem_error` of `is_directory(l)` leaves the loop, where with
`dirs_only` unset `/inbox/archive` is returned. The claim has `input` returned,
or a string that starts with it, for every input, as the `catch` block does three lines further
when reading the directory throws. -/
theorem autocomplete_call_throws :
    autocomplete_call example_private_fs "/private/docs/re".toList true
      = Except.error ⟨"/private/docs".toList⟩ ∧
    autocomplete_call example_private_fs "/private/docs/re".toList false
      = Except.error ⟨"/private/docs".toList⟩ ∧
    (¬ ∃ r : Str, autocomplete_call example_private_fs "/private/docs/re".toList true
      = Except.ok r ∧ "/private/docs/re".toList <+: r) ∧
    UIDirInputLabel.tab_call example_private_fs
        { example_selector with dir_path := "/private/docs/re".toList }
      = Except.error ⟨"/private/docs".toList⟩ ∧
    autocomplete_call example_inbox_fs "/inbox/ar".toList true
      = Except.error ⟨"/inbox/a.txt".toList⟩ ∧
    autocomplete_call example_inbox_fs "/inbox/ar".toList false
      = Except.ok "/inbox/archive".toList := by
  refine ⟨by decide, by decide, ?_, by decide, by decide, by decide⟩
  rintro ⟨r, hr, _⟩
  have herr : autocomplete_call example_private_fs "/private/docs/re".toList true
      = Except.error ⟨"/private/docs".toList⟩ := by decide
  rw [herr] at hr
  exact Except.noConfusion hr

/-! ### File selector: the listing -/

/-- The three outcomes of `updateListing`: nothing changes, the path input goes
back to a non-empty `previous_dir`, or the listing is rebuilt. -/
theorem updateListing_cases (fs : FileSystem) (s : UIFileSelector) :
    updateListing fs s = s ∨
    (s.previous_dir.isEmpty = false ∧
      updateListing fs s = { s with dir_path := s.previous_dir, previous_dir := [] }) ∨
    ∃ rows, updateListing fs s = { s with listing := rows } := by
  unfold updateListing
  by_cases h1 : s.dir_path.isEmpty = true
  · exact Or.inl (by rw [if_pos h1])
  · rw [if_neg h1]
    dsimp only
    by_cases h2 : (!fs.is_directory s.dir_path) = true
    · exact Or.inl (by rw [if_pos h2])
    · rw [if_neg h2]
      cases fs.read_dir s.dir_path with
      | none =>
        dsimp only
        by_cases h3 : (!s.previous_dir.isEmpty && fs.is_directory s.previous_dir) = true
        · rw [if_pos h3]
          simp only [Bool.and_eq_true, Bool.not_eq_true'] at h3
          exact Or.inr (Or.inl ⟨h3.1, rfl⟩)
        · rw [if_neg h3]
          exact Or.inl rfl
      | some entries => exact Or.inr (Or.inr ⟨_, rfl⟩)

theorem updateListing_performed (fs : FileSystem) (s : UIFileSelector) :
    (updateListing fs s).performed = s.performed := by
  rcases updateListing_cases fs s with h | ⟨_, h⟩ | ⟨rows, h⟩ <;> rw [h]

theorem changeDir_performed (fs : FileSystem) (s : UIFileSelector) (dir : Str) :
    (changeDir fs s dir).1.performed = s.performed := by
  unfold changeDir
  split_ifs
  · rfl
  · exact updateListing_performed fs _

/-- C5: for the row built by either constructor of `UIFileSelectorLabel` from a
path, `submit` (and `doubleClick`, which calls it) performs the action exactly
when the row is not a directory; the action is then performed once, with the
path of the row, `selected_path` is that path and the name input shows its file
name. For a directory row no action is performed and the selector is the one
`changeDir` gives for the path of the row, after `ui->deselect()`. -/
theorem submit_confirms_files (fs : FileSystem) (s : UIFileSelector) (label path : Str) :
    UIFileSelectorLabel.new fs path = UIFileSelectorLabel.new_labelled fs (fs.filename path) path ∧
    ((UIFileSelectorLabel.new_labelled fs label path).directory = false →
      ((UIFileSelectorLabel.new_labelled fs label path).submit fs s).performed
          = s.performed ++ [path] ∧
      ((UIFileSelectorLabel.new_labelled fs label path).submit fs s).selected_path = path ∧
      ((UIFileSelectorLabel.new_labelled fs label path).submit fs s).file_path
          = fs.filename path) ∧
    ((UIFileSelectorLabel.new_labelled fs label path).directory = true →
      ((UIFileSelectorLabel.new_labelled fs label path).submit fs s).performed = s.performed ∧
      (UIFileSelectorLabel.new_labelled fs label path).submit fs s
          = (changeDir fs { s with ui_deselects := s.ui_deselects + 1 } path).1) ∧
    (((UIFileSelectorLabel.new_labelled fs label path).submit fs s).performed ≠ s.performed ↔
      (UIFileSelectorLabel.new_labelled fs label path).directory = false) ∧
    (UIFileSelectorLabel.new_labelled fs label path).doubleClick fs s
      = (UIFileSelectorLabel.new_labelled fs label path).submit fs s := by
  have hfile : (UIFileSelectorLabel.new_labelled fs label path).directory = false →
      ((UIFileSelectorLabel.new_labelled fs label path).submit fs s).performed
          = s.performed ++ [path] ∧
      ((UIFileSelectorLabel.new_labelled fs label path).submit fs s).selected_path = path ∧
      ((UIFileSelectorLabel.new_labelled fs label path).submit fs s).file_path
          = fs.filename path := by
    intro h
    have hd : fs.is_directory path = false := h
    unfold UIFileSelectorLabel.submit UIFileSelectorLabel.new_labelled confirm selectPath
    simp [hd]
  have hdirectory : (UIFileSelectorLabel.new_labelled fs label path).directory = true →
      ((UIFileSelectorLabel.new_labelled fs label path).submit fs s).performed = s.performed ∧
      (UIFileSelectorLabel.new_labelled fs label path).submit fs s
          = (changeDir fs { s with ui_deselects := s.ui_deselects + 1 } path).1 := by
    intro h
    have hsub : (UIFileSelectorLabel.new_labelled fs label path).submit fs s
        = (changeDir fs { s with ui_deselects := s.ui_deselects + 1 } path).1 := by
      unfold UIFileSelectorLabel.submit
      rw [if_pos h]
      rfl
    rw [hsub]
    exact ⟨changeDir_performed fs _ path, rfl⟩
  refine ⟨rfl, hfile, hdirectory, ?_, rfl⟩
  cases hd : (UIFileSelectorLabel.new_labelled fs label path).directory with
  | false =>
    rw [(hfile hd).1]
    simp
  | true =>
    rw [(hdirectory hd).1]
    simp

theorem submit_confirms_files_witness :
    (((UIFileSelectorLabel.new_labelled example_fs "notes.txt".toList
        "/home/notes.txt".toList).submit example_fs example_selector).performed
          = example_selector.performed ++ ["/home/notes.txt".toList] ∧
      ((UIFileSelectorLabel.new_labelled example_fs "notes.txt".toList
        "/home/notes.txt".toList).submit example_fs example_selector).selected_path
          = "/home/notes.txt".toList ∧
      ((UIFileSelectorLabel.new_labelled example_fs "notes.txt".toList
        "/home/notes.txt".toList).submit example_fs example_selector).file_path
          = "notes.txt".toList) ∧
    ((UIFileSelectorLabel.new_labelled example_fs "docs".toList
        "/home/docs".toList).submit example_fs example_selector).performed
          = example_selector.performed :=
  ⟨(submit_confirms_files example_fs example_selector "notes.txt".toList
      "/home/notes.txt".toList).2.1 (by decide),
    ((submit_confirms_files example_fs example_selector "docs".toList
      "/home/docs".toList).2.2.1 (by decide)).1⟩

/-! ### File selector: the constructor -/

/-- The constructor leaves the initial directory as it was given: the test of
its first `if` is never true. -/
theorem new_dir_path (fs : FileSystem) (dir : Str) (selected_option : Option Str) :
    (UIFileSelector.new fs dir selected_option).dir_path = dir := by
  have hcond : (decide ((if dir.length = 0 then 1 else 0) > 2) && dir[1]? != some ':' &&
      (dir.getLast? == some '/' || dir.getLast? == some (Char.ofNat 92))) = false := by
    have h0 : decide ((if dir.length = 0 then 1 else 0) > 2) = false := by
      split_ifs <;> decide
    rw [h0]
    rfl
  unfold UIFileSelector.new
  simp only [hcond, Bool.false_eq_true, if_false]
  rcases updateListing_cases fs
      { dir_path := dir, file_path := [], previous_dir := [], selected_path := [],
        current_filter := selected_option, listing := [], performed := [],
        ui_deselects := 0 } with h | ⟨hp, _⟩ | ⟨rows, h⟩
  · rw [h]
  · exact absurd hp (Bool.noConfusion)
  · rw [h]

/-- C6, on the code: built on `/home/user/`, the selector shows `/home/user/` in
its path input, the trailing slash still there; the claim has `/home/user`. -/
theorem new_keeps_trailing_slash :
    (UIFileSelector.new example_fs "/home/user/".toList (some [])).dir_path
        = "/home/user/".toList ∧
    (UIFileSelector.new example_fs "/home/user/".toList (some [])).dir_path
        ≠ "/home/user".toList ∧
    ("/home/user/".toList).length > 2 ∧ ("/home/user/".toList)[1]? ≠ some ':' ∧
    ("/home/user/".toList).getLast? = some '/' := by
  decide

end Core
